import Mathlib

/-!
Shallow embedding of the Client Session & API Gateway Layer of the
HeartBreakers/Finova front end (`src/Frontend/finova/src/lib/api.ts` and
`src/Frontend/finova/src/components/providers/SessionProvider.tsx`).

The browser world (module-level token cache, `window.localStorage`,
`window.location`) is modelled as an explicit `World` record threaded through
the functions.  JavaScript's `string | null | undefined` for the token cache
becomes `Option (Option String)` (`none` = `undefined`, `some none` = `null`,
`some (some t)` = the string `t`).  Navigation via `window.location.replace`
is recorded in a `navigations` log so that "exactly one navigation" is
observable.  Network transport itself is not modelled: `apiFetch` takes the
`Response` the transport would deliver and returns the classified result
together with the updated world.
-/

namespace Finova

/-- Browser-side mutable state shared by the api module:
`cachedToken` is the module-level `cachedToken` variable
(`string | null | undefined`), `localStorage` the value stored under the
`finova:authToken` key, `windowAvailable` models `typeof window !== "undefined"`,
`locationPath` is `window.location.pathname` and `navigations` logs each call
of `window.location.replace`. -/
structure World where
  cachedToken : Option (Option String)
  localStorage : Option String
  windowAvailable : Bool
  locationPath : String
  navigations : List String
  deriving Repr, DecidableEq

/-- `readStoredToken` from api.ts: return the cached token if the cache is
initialised (`cachedToken !== undefined`), otherwise read `localStorage`
(caching the result) when a window exists, else return `null` without
caching. -/
def readStoredToken (w : World) : Option String × World :=
  match w.cachedToken with
  | some v => (v, w)
  | none =>
    if w.windowAvailable then
      (w.localStorage, { w with cachedToken := some w.localStorage })
    else
      (none, w)

/-- `getAuthToken` from api.ts. -/
def getAuthToken (w : World) : Option String × World :=
  readStoredToken w

/-- The credential value a read observes (the Credential Store's content). -/
def tokenValue (w : World) : Option String :=
  (getAuthToken w).1

/-- `setAuthToken` from api.ts: a non-empty string is cached and persisted;
anything else (null, or the falsy empty string) resets the cache to `null`
and removes the durable copy. -/
def setAuthToken (token : Option String) (w : World) : World :=
  match token with
  | some t =>
    if t ≠ "" then
      let w1 := { w with cachedToken := some (some t) }
      if w1.windowAvailable then { w1 with localStorage := some t } else w1
    else
      let w1 := { w with cachedToken := some none }
      if w1.windowAvailable then { w1 with localStorage := none } else w1
  | none =>
    let w1 := { w with cachedToken := some none }
    if w1.windowAvailable then { w1 with localStorage := none } else w1

/-- `clearAuthToken` from api.ts. -/
def clearAuthToken (w : World) : World :=
  setAuthToken none w

/-- C9.  After `setAuthToken t` a read returns `t` exactly when `t` is a
non-empty string and `null` otherwise, and `clearAuthToken` is definitionally
`setAuthToken null`: the store never holds an empty-string credential. -/
theorem setAuthToken_spec (w : World) (s : String) :
    tokenValue (setAuthToken (some s) w) = (if s = "" then none else some s) ∧
    tokenValue (setAuthToken none w) = none ∧
    clearAuthToken w = setAuthToken none w := by
  refine ⟨?_, ?_, rfl⟩
  · by_cases hs : s = "" <;>
      simp [setAuthToken, tokenValue, getAuthToken, readStoredToken, hs] <;>
      by_cases hw : w.windowAvailable <;> simp [hw]
  · by_cases hw : w.windowAvailable <;>
      simp [setAuthToken, tokenValue, getAuthToken, readStoredToken, hw]

/-- A JavaScript plain object holding string header values, kept in property
insertion order. -/
abbrev HeaderRecord := List (String × String)

/-- JavaScript property assignment `record[key] = value`: replace the value
in place when the key exists, append otherwise. -/
def setField (r : HeaderRecord) (k v : String) : HeaderRecord :=
  if r.any (fun p => p.1 = k) then
    r.map (fun p => if p.1 = k then (k, v) else p)
  else
    r ++ [(k, v)]

/-- Property lookup `record[key]`. -/
def lookupField (r : HeaderRecord) (k : String) : Option String :=
  (r.find? (fun p => p.1 = k)).map (fun p => p.2)

/-- `toHeaderRecord` from api.ts, modelled on its array branch (the most
general caller-facing shape): fold the entries into a fresh object, skipping
entries whose key is falsy (the empty string).  The plain-object branch is the
identity on an already-built record and the `Headers`-instance branch is not
modelled. -/
def toHeaderRecord (headers : Option (List (String × String))) : HeaderRecord :=
  match headers with
  | none => []
  | some hs => hs.foldl (fun acc p => if p.1 ≠ "" then setField acc p.1 p.2 else acc) []

/-- `buildHeaders` from api.ts.  `bodyIsFormData` models
`typeof FormData !== "undefined" && body instanceof FormData`.  The token read
may populate the module cache, so the world is threaded through. -/
def buildHeaders (bodyIsFormData : Bool) (headers : Option (List (String × String)))
    (skipAuth : Bool) (w : World) : HeaderRecord × World :=
  let record := toHeaderRecord headers
  let hasContentType :=
    record.any (fun p => p.1 = "Content-Type") || record.any (fun p => p.1 = "content-type")
  let record :=
    if ¬bodyIsFormData ∧ ¬hasContentType then
      setField record "Content-Type" "application/json"
    else record
  if ¬skipAuth then
    let (token, w1) := getAuthToken w
    match token with
    | some t =>
      if t ≠ "" then (setField record "Authorization" ("Token " ++ t), w1)
      else (record, w1)
    | none => (record, w1)
  else
    (record, w)

/-- `handleUnauthorized` from api.ts: drop the stored token, then unless
redirect is suppressed navigate to `/login` when a window exists and the
current path is not already `/login`. -/
def handleUnauthorized (skipRedirect : Bool) (w : World) : World :=
  let w1 := clearAuthToken w
  if skipRedirect then w1
  else if w1.windowAvailable ∧ w1.locationPath ≠ "/login" then
    { w1 with locationPath := "/login", navigations := w1.navigations ++ ["/login"] }
  else w1

/-- JavaScript `str.split(sep)` for a single-character separator, over the
character list of the string: `"".split` is `[""]`, a trailing separator
yields a trailing empty segment. -/
def splitOnChar (c : Char) : List Char → List (List Char)
  | [] => [[]]
  | x :: xs =>
    if x = c then [] :: splitOnChar c xs
    else
      match splitOnChar c xs with
      | [] => [[x]]
      | s :: ss => (x :: s) :: ss

/-- JavaScript `str.trim()`: drop whitespace from both ends. -/
def trimChars (l : List Char) : List Char :=
  ((l.dropWhile Char.isWhitespace).reverse.dropWhile Char.isWhitespace).reverse

/-- `normalizePath` from api.ts, over character lists.  Splits on every `?`
(the destructuring keeps only the first two segments), trims the path part,
forces a leading and a trailing slash, and re-appends the query segment when
it is truthy (non-empty). -/
def normalizePath (p : List Char) : List Char :=
  if p = [] then ['/']
  else
    let parts := splitOnChar '?' p
    let rawPath := parts.headD []
    let query := (parts.drop 1).headD []
    let trimmed := trimChars rawPath
    let prefixed := if trimmed.head? = some '/' then trimmed else '/' :: trimmed
    let withTrailingSlash :=
      if prefixed.getLast? = some '/' then prefixed else prefixed ++ ['/']
    if query ≠ [] then withTrailingSlash ++ '?' :: query else withTrailingSlash

/-- A string starts with exactly one slash: a leading `/` not followed by a
second one. -/
def startsWithOneSlash (l : List Char) : Prop :=
  l.head? = some '/' ∧ (l.drop 1).head? ≠ some '/'

instance (l : List Char) : Decidable (startsWithOneSlash l) := by
  unfold startsWithOneSlash; infer_instance

/-- The decoded JSON body of a response, restricted to the fields this layer
ever inspects, plus the rotated-session-key field named by the spec (`none` =
field absent, `some none` = field present with value `null`). -/
structure BodyData where
  error : Option String := none
  message : Option String := none
  sessionKey : Option (Option String) := none
  deriving Repr, DecidableEq

/-- The raw response handed back by the transport: the HTTP status, the
declared `content-type` header (empty when absent) and the value
`response.json()` would produce. -/
structure Response where
  status : Nat
  contentType : String
  jsonBody : BodyData
  deriving Repr, DecidableEq

/-- JavaScript `haystack.includes(needle)` on strings. -/
def strIncludes (haystack needle : String) : Bool :=
  haystack.toList.tails.any (fun t => needle.toList.isPrefixOf t)

/-- `Response.ok` per the Fetch specification: status in [200, 300). -/
def responseOk (status : Nat) : Bool :=
  200 ≤ status && status < 300

/-- The `ApiError` class from api.ts. -/
structure ApiError where
  message : String
  status : Nat
  data : Option BodyData
  deriving Repr, DecidableEq

/-- The `RequestOptions` extensions of api.ts; `bodyIsFormData` captures the
shape of `rest.body`, the only property of the body this layer inspects. -/
structure RequestOptions where
  skipJson : Bool := false
  skipAuth : Bool := false
  skipAuthRedirect : Bool := false
  headers : Option (List (String × String)) := none
  bodyIsFormData : Bool := false
  deriving Repr, DecidableEq

/-- Truthiness-filtering of an optional string field, as used by the `||`
chains in api.ts: an absent field and an empty string are both falsy. -/
def truthyField (o : Option String) : Option String :=
  o.bind (fun s => if s = "" then none else some s)

/-- The message of the thrown `ApiError`:
`data?.error || data?.message || "Request failed with status <code>"`. -/
def failureMessage (data : Option BodyData) (status : Nat) : String :=
  ((truthyField (data.bind BodyData.error)).orElse
    (fun _ => truthyField (data.bind BodyData.message))).getD
    ("Request failed with status " ++ toString status)

/-- `apiFetch` from api.ts, given the response the transport delivers.
Builds the request headers (which may touch the token cache), then: a 204
status or the skip-JSON option returns `undefined` at once; otherwise the
body is decoded when the content type indicates JSON, a 401 status fires the
unauthorized handler, any non-ok status throws an `ApiError`, and an ok
status returns the decoded data.  URL formation and the network call itself
are outside the model. -/
def apiFetch (opts : RequestOptions) (resp : Response) (w : World) :
    Except ApiError (Option BodyData) × World :=
  let (_requestHeaders, w1) :=
    buildHeaders opts.bodyIsFormData opts.headers opts.skipAuth w
  if resp.status = 204 ∨ opts.skipJson then
    (Except.ok none, w1)
  else
    let isJson := strIncludes resp.contentType "application/json"
    let data := if isJson then some resp.jsonBody else none
    let w2 := if resp.status = 401 then handleUnauthorized opts.skipAuthRedirect w1 else w1
    if ¬responseOk resp.status then
      (Except.error ⟨failureMessage data resp.status, resp.status, data⟩, w2)
    else
      (Except.ok data, w2)

/-- `UserProfile` from api.ts. -/
structure UserProfile where
  id : Nat
  username : String
  email : Option (Option String) := none
  deriving Repr, DecidableEq

/-- The `SessionState` of SessionProvider.tsx. -/
structure SessionState where
  authenticated : Bool
  user : Option UserProfile := none
  deriving Repr, DecidableEq

/-- `authApi.logout` passes only `method` and a JSON string body: all the
extension options keep their defaults. -/
def logoutOptions : RequestOptions := {}

/-- `logout` from SessionProvider.tsx composed with `authApi.logout`:
try the remote call (`none` models a transport-level failure after the
headers were built; `some resp` a completed HTTP exchange, whose 401/throw
behavior is `apiFetch`'s), then in the `finally` block clear the credential
and reset the session. -/
def sessionLogout (outcome : Option Response) (w : World) : World × SessionState :=
  let w1 :=
    match outcome with
    | some resp => (apiFetch logoutOptions resp w).2
    | none => (buildHeaders false none false w).2
  (clearAuthToken w1, { authenticated := false, user := none })

/-! ### Helper lemmas on the world state -/

theorem setAuthToken_none_eq (w : World) :
    setAuthToken none w =
      { w with
        cachedToken := some none,
        localStorage := if w.windowAvailable then none else w.localStorage } := by
  unfold setAuthToken
  by_cases hw : w.windowAvailable <;> simp [hw]

theorem tokenValue_setAuthToken_none (w : World) :
    tokenValue (setAuthToken none w) = none := by
  simp [setAuthToken_none_eq, tokenValue, getAuthToken, readStoredToken]

theorem tokenValue_clearAuthToken (w : World) :
    tokenValue (clearAuthToken w) = none := by
  simp [clearAuthToken, tokenValue_setAuthToken_none]

theorem tokenValue_handleUnauthorized (b : Bool) (w : World) :
    tokenValue (handleUnauthorized b w) = none := by
  unfold handleUnauthorized
  by_cases hb : b
  · simp [hb, tokenValue_clearAuthToken]
  · by_cases hnav : (clearAuthToken w).windowAvailable ∧ (clearAuthToken w).locationPath ≠ "/login"
    · simp only [hb, if_false, hnav, if_true]
      have := tokenValue_clearAuthToken w
      simp [tokenValue, getAuthToken, readStoredToken] at this ⊢
      rcases hcc : (clearAuthToken w).cachedToken with _ | v <;> simp_all
    · simp [hb, hnav, tokenValue_clearAuthToken]

theorem readStoredToken_snd_preserves (w : World) :
    ((readStoredToken w).2).windowAvailable = w.windowAvailable ∧
    ((readStoredToken w).2).locationPath = w.locationPath ∧
    ((readStoredToken w).2).navigations = w.navigations ∧
    tokenValue ((readStoredToken w).2) = tokenValue w := by
  unfold tokenValue getAuthToken readStoredToken
  rcases hc : w.cachedToken with _ | v
  · by_cases hw : w.windowAvailable <;> simp [hc, hw]
  · simp [hc]

theorem buildHeaders_snd (b : Bool) (h : Option (List (String × String)))
    (sa : Bool) (w : World) :
    (buildHeaders b h sa w).2 = if sa then w else (readStoredToken w).2 := by
  unfold buildHeaders getAuthToken
  rcases hr : readStoredToken w with ⟨tok, w1⟩
  by_cases hsa : sa
  · simp [hsa]
  · rcases tok with _ | t
    · simp [hsa, hr]
    · by_cases ht : t = "" <;> simp [hsa, hr, ht]

theorem buildHeaders_snd_preserves (b : Bool) (h : Option (List (String × String)))
    (sa : Bool) (w : World) :
    ((buildHeaders b h sa w).2).windowAvailable = w.windowAvailable ∧
    ((buildHeaders b h sa w).2).locationPath = w.locationPath ∧
    ((buildHeaders b h sa w).2).navigations = w.navigations ∧
    tokenValue ((buildHeaders b h sa w).2) = tokenValue w := by
  rw [buildHeaders_snd]
  by_cases hsa : sa
  · simp [hsa]
  · simpa [hsa] using readStoredToken_snd_preserves w

/-! ### Claim theorems about the store and the gateway -/

/-- C7.  `logout` leaves the session `Unauthenticated` and the Credential
Store reading absent, for every outcome of the remote call: transport
failure, any HTTP failure status, or success. -/
theorem sessionLogout_spec (outcome : Option Response) (w : World) :
    (sessionLogout outcome w).2 = { authenticated := false, user := none } ∧
    tokenValue (sessionLogout outcome w).1 = none := by
  refine ⟨rfl, ?_⟩
  unfold sessionLogout
  rcases outcome with _ | resp <;> simp [tokenValue_clearAuthToken]

/-- C10.  A 204 status or the skip-JSON option short-circuits `apiFetch`: it
returns an absent payload without raising and without touching the
credential, the location or the navigation log — even on a 401 or any other
non-2xx status. -/
theorem apiFetch_skipJson_spec (opts : RequestOptions) (resp : Response) (w : World)
    (h : resp.status = 204 ∨ opts.skipJson = true) :
    (apiFetch opts resp w).1 = Except.ok none ∧
    tokenValue (apiFetch opts resp w).2 = tokenValue w ∧
    ((apiFetch opts resp w).2).navigations = w.navigations ∧
    ((apiFetch opts resp w).2).locationPath = w.locationPath := by
  have hp := buildHeaders_snd_preserves opts.bodyIsFormData opts.headers opts.skipAuth w
  unfold apiFetch
  rcases h with h | h <;> simp [h, hp.2.1, hp.2.2.1, hp.2.2.2]

/-- C10 witness: a 401 response with the skip-JSON option set returns
`undefined`, leaves the stored token `"abc"` in place and performs no
navigation. -/
theorem apiFetch_skipJson_spec_witness :
    (apiFetch { skipJson := true }
        ⟨401, "application/json", {}⟩
        ⟨some (some "abc"), some "abc", true, "/dashboard", []⟩).1 = Except.ok none ∧
    tokenValue (apiFetch { skipJson := true }
        ⟨401, "application/json", {}⟩
        ⟨some (some "abc"), some "abc", true, "/dashboard", []⟩).2 =
      tokenValue ⟨some (some "abc"), some "abc", true, "/dashboard", []⟩ ∧
    ((apiFetch { skipJson := true }
        ⟨401, "application/json", {}⟩
        ⟨some (some "abc"), some "abc", true, "/dashboard", []⟩).2).navigations =
      (⟨some (some "abc"), some "abc", true, "/dashboard", []⟩ : World).navigations ∧
    ((apiFetch { skipJson := true }
        ⟨401, "application/json", {}⟩
        ⟨some (some "abc"), some "abc", true, "/dashboard", []⟩).2).locationPath =
      (⟨some (some "abc"), some "abc", true, "/dashboard", []⟩ : World).locationPath :=
  apiFetch_skipJson_spec _ _ _ (Or.inr rfl)

/-- C2 counterexample: the claim quantifies over all options, but with the
skip-JSON option set a request completed with status 401 leaves the stored
credential in place — the store still reads `"abc"` afterwards. -/
theorem apiFetch_401_skipJson_keeps_token :
    tokenValue (apiFetch { skipJson := true }
        ⟨401, "application/json", {}⟩
        ⟨some (some "abc"), some "abc", true, "/dashboard", []⟩).2 = some "abc" := by
  decide

/-- C2 (amended).  Unless the skip-JSON option short-circuits the call, every
request that completes with status 401 leaves the Credential Store reading
absent, whatever its prior state and the remaining options. -/
theorem apiFetch_401_clears_token (opts : RequestOptions) (resp : Response) (w : World)
    (h401 : resp.status = 401) (hsj : opts.skipJson = false) :
    tokenValue (apiFetch opts resp w).2 = none := by
  unfold apiFetch
  simp only [h401, hsj]
  norm_num [tokenValue_handleUnauthorized, responseOk]

/-- C2 witness: a plain 401 (no options) against a store holding `"abc"`
leaves the store reading absent. -/
theorem apiFetch_401_clears_token_witness :
    tokenValue (apiFetch {}
        ⟨401, "application/json", {}⟩
        ⟨some (some "abc"), some "abc", true, "/dashboard", []⟩).2 = none :=
  apiFetch_401_clears_token _ _ _ rfl rfl

/-- C1 counterexample: a successful JSON response whose body carries
`sessionKey = "abc"` does not update the Credential Store — the payload is
returned untouched and a subsequent read still returns absent, not `"abc"`. -/
theorem apiFetch_ignores_sessionKey :
    (apiFetch {}
        ⟨200, "application/json", { sessionKey := some (some "abc") }⟩
        ⟨some none, none, true, "/dashboard", []⟩).1 =
      Except.ok (some { sessionKey := some (some "abc") }) ∧
    tokenValue (apiFetch {}
        ⟨200, "application/json", { sessionKey := some (some "abc") }⟩
        ⟨some none, none, true, "/dashboard", []⟩).2 = none :=
  ⟨rfl, rfl⟩

/-- C1 (amended).  `apiFetch` never writes the Credential Store on a
successful response: whatever session-key field the decoded body carries is
ignored, and a subsequent read returns the same value as before the call. -/
theorem apiFetch_success_preserves_token (opts : RequestOptions) (resp : Response)
    (w : World) (hok : responseOk resp.status = true) :
    tokenValue (apiFetch opts resp w).2 = tokenValue w := by
  have hp := buildHeaders_snd_preserves opts.bodyIsFormData opts.headers opts.skipAuth w
  have h401 : resp.status ≠ 401 := by
    intro h; rw [h] at hok; simp [responseOk] at hok
  unfold apiFetch
  by_cases h204 : resp.status = 204
  · simp [h204, hp.2.2.2]
  · by_cases hsj : opts.skipJson <;> simp [h204, hsj, h401, hok, hp.2.2.2]

/-- C1 witness: a 200 JSON response with a rotated `sessionKey` leaves the
read value of a store holding `"tok"` unchanged. -/
theorem apiFetch_success_preserves_token_witness :
    tokenValue (apiFetch {}
        ⟨200, "application/json", { sessionKey := some (some "xyz") }⟩
        ⟨some (some "tok"), some "tok", true, "/dashboard", []⟩).2 =
      tokenValue ⟨some (some "tok"), some "tok", true, "/dashboard", []⟩ :=
  apiFetch_success_preserves_token _ _ _ rfl

/-- C3 counterexample: the claim prefers the `error` field whenever it is
present, but the `||` chain skips a falsy empty string — a 500 body with
`error = ""` and `message = "m"` raises with message `"m"`, not `""`. -/
theorem apiFetch_empty_error_falls_through :
    (apiFetch {}
        ⟨500, "application/json", { error := some "", message := some "m" }⟩
        ⟨some (some "abc"), some "abc", true, "/dashboard", []⟩).1 =
      Except.error ⟨"m", 500, some { error := some "", message := some "m" }⟩ ∧
    ("m" : String) ≠ "" :=
  ⟨rfl, by decide⟩

/-- C3 (amended).  Every non-2xx response that is not short-circuited by 204
or the skip-JSON option raises an `ApiError` carrying the decoded body and
the numeric status, whose message is the body's `error` field when non-empty,
else the body's `message` field when non-empty, else
`"Request failed with status <code>"`. -/
theorem apiFetch_failure_spec (opts : RequestOptions) (resp : Response) (w : World)
    (h204 : resp.status ≠ 204) (hsj : opts.skipJson = false)
    (hok : responseOk resp.status = false) :
    (apiFetch opts resp w).1 =
      Except.error
        { message :=
            (let data :=
              if strIncludes resp.contentType "application/json" then some resp.jsonBody
              else none
             let e := (data.bind BodyData.error).getD ""
             let m := (data.bind BodyData.message).getD ""
             if e ≠ "" then e
             else if m ≠ "" then m
             else "Request failed with status " ++ toString resp.status),
          status := resp.status,
          data :=
            if strIncludes resp.contentType "application/json" then some resp.jsonBody
            else none } := by
  unfold apiFetch
  simp only [h204, hsj, hok]
  norm_num
  rcases hj : (if strIncludes resp.contentType "application/json" = true
      then some resp.jsonBody else none) with _ | d
  · simp [failureMessage, truthyField]
  · rcases he : d.error with _ | e
    · rcases hm : d.message with _ | m
      · simp [failureMessage, truthyField, he, hm]
      · by_cases hme : m = "" <;>
          simp [failureMessage, truthyField, he, hm, hme, Option.orElse]
    · rcases hm : d.message with _ | m
      · by_cases hee : e = "" <;>
          simp [failureMessage, truthyField, he, hm, hee, Option.orElse]
      · by_cases hee : e = "" <;> by_cases hme : m = "" <;>
          simp [failureMessage, truthyField, he, hm, hee, hme, Option.orElse]

/-- C3 witness: the spec's own test case — a 401 with body
`error = "bad creds"` raises an `ApiError` whose message is `"bad creds"`
with the body attached. -/
theorem apiFetch_failure_spec_witness :
    (apiFetch {}
        ⟨401, "application/json", { error := some "bad creds" }⟩
        ⟨some (some "abc"), some "abc", true, "/dashboard", []⟩).1 =
      Except.error ⟨"bad creds", 401, some { error := some "bad creds" }⟩ :=
  (apiFetch_failure_spec {}
      ⟨401, "application/json", { error := some "bad creds" }⟩
      ⟨some (some "abc"), some "abc", true, "/dashboard", []⟩
      (by decide) rfl (by decide)).trans rfl

/-- C5.  With the suppress-redirect flag the unauthorized handler clears the
credential and changes neither the location nor the navigation log; without
the flag (in a navigable environment) it clears the credential, navigates to
`/login` exactly when the current location is not already `/login`, and a
second concurrent invocation adds no further navigation. -/
theorem handleUnauthorized_spec (w : World) :
    (tokenValue (handleUnauthorized true w) = none ∧
     (handleUnauthorized true w).navigations = w.navigations ∧
     (handleUnauthorized true w).locationPath = w.locationPath) ∧
    (w.windowAvailable = true →
      tokenValue (handleUnauthorized false w) = none ∧
      (handleUnauthorized false w).navigations =
        (if w.locationPath ≠ "/login" then w.navigations ++ ["/login"]
         else w.navigations) ∧
      (handleUnauthorized false w).locationPath = "/login" ∧
      (handleUnauthorized false (handleUnauthorized false w)).navigations =
        (handleUnauthorized false w).navigations) := by
  have hclear : ∀ v : World, clearAuthToken v =
      { v with
        cachedToken := some none,
        localStorage := if v.windowAvailable then none else v.localStorage } := by
    intro v; exact setAuthToken_none_eq v
  constructor
  · exact ⟨tokenValue_handleUnauthorized true w, by simp [handleUnauthorized, hclear],
      by simp [handleUnauthorized, hclear]⟩
  · intro hw
    refine ⟨tokenValue_handleUnauthorized false w, ?_, ?_, ?_⟩
    · by_cases hloc : w.locationPath = "/login" <;>
        simp [handleUnauthorized, hclear, hw, hloc]
    · by_cases hloc : w.locationPath = "/login" <;>
        simp [handleUnauthorized, hclear, hw, hloc]
    · by_cases hloc : w.locationPath = "/login" <;>
        simp [handleUnauthorized, hclear, hw, hloc]

/-- C5 witness: from `/dashboard` with a stored token, a suppressed handler
clears without navigating, an unsuppressed one navigates exactly once to
`/login`, and a second unsuppressed invocation adds no further navigation. -/
theorem handleUnauthorized_spec_witness :
    tokenValue (handleUnauthorized true
        ⟨some (some "abc"), some "abc", true, "/dashboard", []⟩) = none ∧
    (handleUnauthorized true
        ⟨some (some "abc"), some "abc", true, "/dashboard", []⟩).navigations = [] ∧
    (handleUnauthorized false
        ⟨some (some "abc"), some "abc", true, "/dashboard", []⟩).navigations = ["/login"] ∧
    (handleUnauthorized false (handleUnauthorized false
        ⟨some (some "abc"), some "abc", true, "/dashboard", []⟩)).navigations =
      ["/login"] := by
  have h := handleUnauthorized_spec ⟨some (some "abc"), some "abc", true, "/dashboard", []⟩
  have h2 := h.2 rfl
  refine ⟨h.1.1, h.1.2.1, ?_, ?_⟩
  · exact h2.2.1.trans (by decide)
  · exact h2.2.2.2.trans (h2.2.1.trans (by decide))

/-! ### Header-record lemmas -/

/-- Character-wise lowercasing of a header name (JavaScript
`name.toLowerCase()` on ASCII header names). -/
def lowerAscii (s : String) : String :=
  String.mk (s.toList.map Char.toLower)

/-- An entry whose name is a content-type header under any letter casing. -/
def contentTypePred (p : String × String) : Bool :=
  lowerAscii p.1 = "content-type"

/-- The record contains a content-type header under some letter casing. -/
def hasContentTypeKey (r : HeaderRecord) : Bool :=
  r.any contentTypePred

theorem filter_map_replace (r : HeaderRecord) (k v : String)
    (hk : lowerAscii k ≠ "content-type") :
    ((r.map fun p => if p.1 = k then (k, v) else p).filter contentTypePred) =
      r.filter contentTypePred := by
  induction r with
  | nil => rfl
  | cons q r ih =>
    by_cases hq : q.1 = k
    · have h1 : contentTypePred (k, v) = false := by
        simp [contentTypePred, hk]
      have h2 : contentTypePred q = false := by
        simp [contentTypePred, hq, hk]
      simp [hq, h1, h2, ih]
    · by_cases hcq : contentTypePred q <;> simp [hq, hcq, ih]

theorem filter_setField_ne (r : HeaderRecord) (k v : String)
    (hk : lowerAscii k ≠ "content-type") :
    (setField r k v).filter contentTypePred = r.filter contentTypePred := by
  unfold setField
  by_cases hmem : r.any (fun p => p.1 = k)
  · simp only [hmem, if_true]
    exact filter_map_replace r k v hk
  · have h1 : contentTypePred (k, v) = false := by simp [contentTypePred, hk]
    simp [hmem, List.filter_append, h1]

theorem hasContentTypeKey_eq_filter (r : HeaderRecord) :
    hasContentTypeKey r = !(r.filter contentTypePred).isEmpty := by
  induction r with
  | nil => rfl
  | cons q r ih =>
    by_cases hq : contentTypePred q
    · simp [hasContentTypeKey, hq]
    · simp [hasContentTypeKey, hq] at ih ⊢
      exact ih

theorem hasContentTypeKey_setField_ne (r : HeaderRecord) (k v : String)
    (hk : lowerAscii k ≠ "content-type") :
    hasContentTypeKey (setField r k v) = hasContentTypeKey r := by
  rw [hasContentTypeKey_eq_filter, hasContentTypeKey_eq_filter,
    filter_setField_ne r k v hk]

theorem exact_ct_implies_hasContentTypeKey (r : HeaderRecord)
    (h : r.any (fun p => p.1 = "Content-Type") = true ∨
      r.any (fun p => p.1 = "content-type") = true) :
    hasContentTypeKey r = true := by
  rcases h with h | h <;>
  · rw [List.any_eq_true] at h
    obtain ⟨p, hp, hk⟩ := h
    rw [hasContentTypeKey, List.any_eq_true]
    refine ⟨p, hp, ?_⟩
    simp only [decide_eq_true_eq] at hk
    simp only [contentTypePred, hk]
    decide

theorem lookupField_cons (q : String × String) (r : HeaderRecord) (k : String) :
    lookupField (q :: r) k = if q.1 = k then some q.2 else lookupField r k := by
  by_cases h : q.1 = k <;> simp [lookupField, List.find?_cons, h]

theorem lookupField_append_absent (r : HeaderRecord) (k v : String)
    (h : r.any (fun p => p.1 = k) = false) :
    lookupField (r ++ [(k, v)]) k = some v := by
  induction r with
  | nil => simp [lookupField_cons]
  | cons q r ih =>
    simp only [List.any_cons, Bool.or_eq_false_iff] at h
    have hq : ¬(q.1 = k) := by simpa using h.1
    rw [List.cons_append, lookupField_cons, if_neg hq]
    exact ih h.2

theorem lookupField_map_replace (r : HeaderRecord) (k2 v k : String) (hne : k2 ≠ k) :
    lookupField (r.map fun p => if p.1 = k2 then (k2, v) else p) k = lookupField r k := by
  induction r with
  | nil => rfl
  | cons q r ih =>
    rw [List.map_cons, lookupField_cons, lookupField_cons]
    by_cases hq : q.1 = k2
    · have hqk : ¬(q.1 = k) := by rw [hq]; exact hne
      rw [if_pos hq, if_neg hqk]
      have : ¬((k2, v).1 = k) := hne
      rw [if_neg this]
      exact ih
    · rw [if_neg hq]
      by_cases hqk : q.1 = k
      · rw [if_pos hqk, if_pos hqk]
      · rw [if_neg hqk, if_neg hqk]
        exact ih

theorem lookupField_append_ne (r : HeaderRecord) (k2 v k : String) (hne : k2 ≠ k) :
    lookupField (r ++ [(k2, v)]) k = lookupField r k := by
  induction r with
  | nil =>
    have : ¬((k2, v).1 = k) := hne
    simp [lookupField_cons, this, lookupField]
  | cons q r ih =>
    rw [List.cons_append, lookupField_cons, lookupField_cons]
    by_cases hqk : q.1 = k
    · rw [if_pos hqk, if_pos hqk]
    · rw [if_neg hqk, if_neg hqk]
      exact ih

theorem lookupField_setField_ne (r : HeaderRecord) (k2 v k : String) (hne : k2 ≠ k) :
    lookupField (setField r k2 v) k = lookupField r k := by
  unfold setField
  by_cases hmem : r.any (fun p => p.1 = k2)
  · simp only [hmem, if_true]
    exact lookupField_map_replace r k2 v k hne
  · simp only [hmem]
    norm_num
    exact lookupField_append_ne r k2 v k hne

/-- Normal form of the header set `buildHeaders` produces. -/
theorem buildHeaders_fst (b : Bool) (h : Option (List (String × String)))
    (sa : Bool) (w : World) :
    (buildHeaders b h sa w).1 =
      (let record := toHeaderRecord h
       let hasCT := record.any (fun p => p.1 = "Content-Type") ||
         record.any (fun p => p.1 = "content-type")
       let record2 :=
         if ¬b ∧ ¬hasCT then setField record "Content-Type" "application/json"
         else record
       if sa then record2
       else
         match (readStoredToken w).1 with
         | some t =>
           if t ≠ "" then setField record2 "Authorization" ("Token " ++ t) else record2
         | none => record2) := by
  unfold buildHeaders getAuthToken
  rcases hr : readStoredToken w with ⟨tok, w1⟩
  by_cases hsa : sa
  · simp [hsa]
  · rcases tok with _ | t
    · simp [hsa, hr]
    · by_cases ht : t = "" <;> simp [hsa, hr, ht]

/-- C6.  When the body is a multipart/form payload the Request Builder adds
no content-type header under any casing, whatever other explicit headers are
supplied; otherwise, when the caller supplied no content-type of their own,
`Content-Type` defaults to `application/json`. -/
theorem buildHeaders_contentType_spec (headers : Option (List (String × String)))
    (skipAuth : Bool) (w : World)
    (hnone : hasContentTypeKey (toHeaderRecord headers) = false) :
    hasContentTypeKey (buildHeaders true headers skipAuth w).1 = false ∧
    lookupField (buildHeaders false headers skipAuth w).1 "Content-Type" =
      some "application/json" := by
  have hauth : lowerAscii "Authorization" ≠ "content-type" := by decide
  constructor
  · rw [buildHeaders_fst]
    simp only [not_true, false_and, if_false]
    by_cases hsa : skipAuth
    · simp [hsa, hnone]
    · rcases ht : (readStoredToken w).1 with _ | t
      · simp [hsa, ht, hnone]
      · by_cases hte : t = ""
        · simp [hsa, ht, hte, hnone]
        · simp [hsa, ht, hte, hnone, hasContentTypeKey_setField_ne _ _ _ hauth]
  · have hex1 : (toHeaderRecord headers).any (fun p => p.1 = "Content-Type") = false := by
      by_contra hc
      rw [Bool.not_eq_false] at hc
      rw [exact_ct_implies_hasContentTypeKey _ (Or.inl hc)] at hnone
      exact Bool.noConfusion hnone
    have hex2 : (toHeaderRecord headers).any (fun p => p.1 = "content-type") = false := by
      by_contra hc
      rw [Bool.not_eq_false] at hc
      rw [exact_ct_implies_hasContentTypeKey _ (Or.inr hc)] at hnone
      exact Bool.noConfusion hnone
    have hlk : lookupField
        (setField (toHeaderRecord headers) "Content-Type" "application/json")
        "Content-Type" = some "application/json" := by
      rw [setField, if_neg (by simp [hex1])]
      exact lookupField_append_absent _ _ _ hex1
    rw [buildHeaders_fst]
    simp only [hex1, hex2, Bool.or_self, not_false_iff, true_and]
    norm_num
    by_cases hsa : skipAuth
    · simpa [hsa] using hlk
    · rcases ht : (readStoredToken w).1 with _ | t
      · simpa [hsa, ht] using hlk
      · by_cases hte : t = ""
        · simpa [hsa, ht, hte] using hlk
        · have hor : lookupField
              (setField (setField (toHeaderRecord headers) "Content-Type" "application/json")
                "Authorization" ("Token " ++ t)) "Content-Type" = some "application/json" := by
            rw [lookupField_setField_ne _ _ _ _
              (by decide : ("Authorization" : String) ≠ "Content-Type")]
            exact hlk
          simpa [hsa, ht, hte] using hor

/-- C6 witness: with a form-data body and an unrelated explicit header no
content-type entry appears; with a JSON body and no caller content-type the
default `application/json` is present. -/
theorem buildHeaders_contentType_spec_witness :
    hasContentTypeKey (buildHeaders true (some [("X-Requested-With", "fetch")]) false
        ⟨some (some "abc"), some "abc", true, "/dashboard", []⟩).1 = false ∧
    lookupField (buildHeaders false (some [("X-Requested-With", "fetch")]) false
        ⟨some (some "abc"), some "abc", true, "/dashboard", []⟩).1 "Content-Type" =
      some "application/json" :=
  buildHeaders_contentType_spec _ _ _ (by decide)

/-- C8 counterexample: the content-type check is case-sensitive — a caller
supplying `CONTENT-TYPE` still gets a second, default `Content-Type` entry,
so header names are not case-insensitively deduplicated. -/
theorem buildHeaders_case_sensitive_ct :
    (buildHeaders false (some [("CONTENT-TYPE", "text/plain")]) true
        ⟨some (some "abc"), some "abc", true, "/dashboard", []⟩).1 =
      [("CONTENT-TYPE", "text/plain"), ("Content-Type", "application/json")] ∧
    ((buildHeaders false (some [("CONTENT-TYPE", "text/plain")]) true
        ⟨some (some "abc"), some "abc", true, "/dashboard", []⟩).1.filter
      contentTypePred).length = 2 := by
  decide

/-- C8 (amended).  A caller-supplied content-type suppresses the computed
`Content-Type` default only under the exact spellings `Content-Type` or
`content-type`: in that case the content-type entries of the produced header
set are exactly the caller's, unchanged and with no default added.
Deduplication of header names is by exact match, not case-insensitive. -/
theorem buildHeaders_exact_ct_precedence (b : Bool)
    (headers : Option (List (String × String))) (sa : Bool) (w : World)
    (hct : (toHeaderRecord headers).any (fun p => p.1 = "Content-Type") = true ∨
      (toHeaderRecord headers).any (fun p => p.1 = "content-type") = true) :
    ((buildHeaders b headers sa w).1).filter contentTypePred =
      (toHeaderRecord headers).filter contentTypePred := by
  have hauth : lowerAscii "Authorization" ≠ "content-type" := by decide
  have hCT : ((toHeaderRecord headers).any (fun p => p.1 = "Content-Type") ||
      (toHeaderRecord headers).any (fun p => p.1 = "content-type")) = true := by
    rcases hct with h | h <;> simp [h]
  rw [buildHeaders_fst]
  simp only [hCT, not_true, and_false, if_false]
  by_cases hsa : sa
  · simp [hsa]
  · rcases ht : (readStoredToken w).1 with _ | t
    · simp [hsa, ht]
    · by_cases hte : t = ""
      · simp [hsa, ht, hte]
      · simp [hsa, ht, hte, filter_setField_ne _ _ _ hauth]

/-- C8 witness: a caller `content-type: text/csv` is kept as the only
content-type entry; no default is added. -/
theorem buildHeaders_exact_ct_precedence_witness :
    ((buildHeaders false (some [("content-type", "text/csv")]) true
        ⟨some (some "abc"), some "abc", true, "/dashboard", []⟩).1.filter
      contentTypePred) =
      (toHeaderRecord (some [("content-type", "text/csv")])).filter contentTypePred :=
  buildHeaders_exact_ct_precedence _ _ _ _ (Or.inr (by decide))

/-! ### Path-normalization lemmas -/

theorem splitOnChar_ne_nil (c : Char) (l : List Char) : splitOnChar c l ≠ [] := by
  induction l with
  | nil => simp [splitOnChar]
  | cons x xs ih =>
    by_cases hx : x = c
    · simp [splitOnChar, hx]
    · simp only [splitOnChar, hx, if_false]
      rcases h : splitOnChar c xs with _ | ⟨s, ss⟩
      · simp
      · simp

theorem splitOnChar_of_not_mem (c : Char) (l : List Char) (h : c ∉ l) :
    splitOnChar c l = [l] := by
  induction l with
  | nil => rfl
  | cons x xs ih =>
    have hx : ¬x = c := by
      intro he
      exact h (by rw [he]; exact List.mem_cons_self c xs)
    have hxs : c ∉ xs := fun hm => h (List.mem_cons_of_mem _ hm)
    simp [splitOnChar, hx, ih hxs]

theorem mem_splitOnChar (c : Char) (l : List Char) :
    ∀ s ∈ splitOnChar c l, c ∉ s := by
  induction l with
  | nil =>
    intro s hs
    simp [splitOnChar] at hs
    subst hs
    simp
  | cons x xs ih =>
    intro s hs
    by_cases hx : x = c
    · simp only [splitOnChar, hx, if_true, List.mem_cons] at hs
      rcases hs with hs | hs
      · subst hs; simp
      · exact ih s hs
    · simp only [splitOnChar, hx, if_false] at hs
      rcases h : splitOnChar c xs with _ | ⟨t, ts⟩
      · exact absurd h (splitOnChar_ne_nil c xs)
      · rw [h] at hs
        simp only [List.mem_cons] at hs
        rcases hs with hs | hs
        · subst hs
          intro hmem
          rcases List.mem_cons.mp hmem with h1 | h1
          · exact hx h1.symm
          · exact ih t (h ▸ List.mem_cons_self t ts) h1
        · exact ih s (h ▸ List.mem_cons_of_mem t hs)

theorem splitOnChar_append (c : Char) (a b : List Char) (h : c ∉ a) :
    splitOnChar c (a ++ c :: b) = a :: splitOnChar c b := by
  induction a with
  | nil => simp [splitOnChar]
  | cons x xs ih =>
    have hx : ¬x = c := by
      intro he
      exact h (by rw [he]; exact List.mem_cons_self c xs)
    have hxs : c ∉ xs := fun hm => h (List.mem_cons_of_mem _ hm)
    rw [List.cons_append, splitOnChar]
    simp only [hx, if_false]
    rw [ih hxs]

theorem dropWhile_eq_self_of_head (p : Char → Bool) (l : List Char) (x : Char)
    (hl : l.head? = some x) (hx : p x = false) : l.dropWhile p = l := by
  cases l with
  | nil => rfl
  | cons a t =>
    have hax : a = x := by simpa using hl
    rw [List.dropWhile_cons, hax, hx]
    simp

theorem trimChars_eq_self (l : List Char) (x y : Char)
    (hh : l.head? = some x) (hx : x.isWhitespace = false)
    (hl : l.getLast? = some y) (hy : y.isWhitespace = false) :
    trimChars l = l := by
  unfold trimChars
  rw [dropWhile_eq_self_of_head _ l x hh hx]
  have hrev : l.reverse.head? = some y := by
    rw [List.head?_reverse]; exact hl
  rw [dropWhile_eq_self_of_head _ l.reverse y hrev hy, List.reverse_reverse]

theorem not_mem_trimChars (c : Char) (l : List Char) (h : c ∉ l) :
    c ∉ trimChars l := by
  intro hc
  apply h
  unfold trimChars at hc
  rw [List.mem_reverse] at hc
  have h1 := (List.dropWhile_sublist (l := (l.dropWhile Char.isWhitespace).reverse)
    (p := Char.isWhitespace)).subset hc
  rw [List.mem_reverse] at h1
  exact (List.dropWhile_sublist (l := l) (p := Char.isWhitespace)).subset h1

/-- The slash-normalized path part built by `normalizePath` from a trimmed
segment `t`: non-empty, starts and ends with `/`, and introduces no `?`. -/
theorem slashBlock_spec (t : List Char) (hq : '?' ∉ t) :
    ((if (if t.head? = some '/' then t else '/' :: t).getLast? = some '/'
       then (if t.head? = some '/' then t else '/' :: t)
       else (if t.head? = some '/' then t else '/' :: t) ++ ['/']).head? = some '/') ∧
    ((if (if t.head? = some '/' then t else '/' :: t).getLast? = some '/'
       then (if t.head? = some '/' then t else '/' :: t)
       else (if t.head? = some '/' then t else '/' :: t) ++ ['/']).getLast? = some '/') ∧
    ('?' ∉ (if (if t.head? = some '/' then t else '/' :: t).getLast? = some '/'
       then (if t.head? = some '/' then t else '/' :: t)
       else (if t.head? = some '/' then t else '/' :: t) ++ ['/'])) := by
  have key : ∀ pre : List Char, pre.head? = some '/' → '?' ∉ pre →
      ((if pre.getLast? = some '/' then pre else pre ++ ['/']).head? = some '/') ∧
      ((if pre.getLast? = some '/' then pre else pre ++ ['/']).getLast? = some '/') ∧
      ('?' ∉ (if pre.getLast? = some '/' then pre else pre ++ ['/'])) := by
    intro pre hh hm
    by_cases hl : pre.getLast? = some '/'
    · simp only [hl, if_true]
      exact ⟨hh, trivial, hm⟩
    · simp only [hl, if_false]
      refine ⟨?_, ?_, ?_⟩
      · cases pre with
        | nil => simp at hh
        | cons a l => simpa using (by simpa using hh : a = '/')
      · simp
      · simp only [List.mem_append, List.mem_singleton]
        rintro (h1 | h1)
        · exact hm h1
        · exact absurd h1 (by decide)
  have h1 : (if t.head? = some '/' then t else '/' :: t).head? = some '/' := by
    by_cases h : t.head? = some '/'
    · rw [if_pos h]; exact h
    · simp [h]
  have h2 : '?' ∉ (if t.head? = some '/' then t else '/' :: t) := by
    by_cases h : t.head? = some '/'
    · rw [if_pos h]; exact hq
    · simp only [h, if_false, List.mem_cons]
      rintro (hx | hx)
      · exact absurd hx (by decide)
      · exact hq hx
  exact key _ h1 h2

/-- Decomposition of `normalizePath` on a non-empty input: the result is a
slash-delimited path block `W` followed by the first query segment (when that
segment is non-empty). -/
theorem normalizePath_decomp (p : List Char) (hp : p ≠ []) :
    ∃ W q : List Char,
      normalizePath p = (if q ≠ [] then W ++ '?' :: q else W) ∧
      W.head? = some '/' ∧ W.getLast? = some '/' ∧ '?' ∉ W ∧ '?' ∉ q ∧
      q = ((splitOnChar '?' p).drop 1).headD [] := by
  have hraw : '?' ∉ (splitOnChar '?' p).headD [] := by
    rcases hs : splitOnChar '?' p with _ | ⟨s, ss⟩
    · simp
    · simpa using mem_splitOnChar '?' p s (hs ▸ List.mem_cons_self s ss)
  have hq : '?' ∉ ((splitOnChar '?' p).drop 1).headD [] := by
    rcases hd : (splitOnChar '?' p).drop 1 with _ | ⟨x, xs⟩
    · simp
    · have hx : x ∈ splitOnChar '?' p := by
        have : x ∈ (splitOnChar '?' p).drop 1 := hd ▸ List.mem_cons_self x xs
        exact List.mem_of_mem_drop this
      simpa using mem_splitOnChar '?' p x hx
  have htr : '?' ∉ trimChars ((splitOnChar '?' p).headD []) :=
    not_mem_trimChars _ _ hraw
  obtain ⟨h1, h2, h3⟩ := slashBlock_spec (trimChars ((splitOnChar '?' p).headD [])) htr
  refine ⟨_, ((splitOnChar '?' p).drop 1).headD [], ?_, h1, h2, h3, hq, rfl⟩
  rw [normalizePath]
  simp only [hp, if_false]

/-- Idempotence engine: `normalizePath` is the identity on any value of the
shape its decomposition produces. -/
theorem normalizePath_fixed (W q : List Char)
    (hh : W.head? = some '/') (hl : W.getLast? = some '/')
    (hW : '?' ∉ W) (hq : '?' ∉ q) :
    normalizePath (if q ≠ [] then W ++ '?' :: q else W) =
      (if q ≠ [] then W ++ '?' :: q else W) := by
  have hWne : W ≠ [] := by
    intro h
    rw [h] at hh
    simp at hh
  have htrim : trimChars W = W :=
    trimChars_eq_self W '/' '/' hh (by decide) hl (by decide)
  by_cases hqe : q = []
  · simp only [hqe, ne_eq, not_true, if_false]
    rw [normalizePath]
    simp [hWne, splitOnChar_of_not_mem '?' W hW, htrim, hh, hl]
  · have hne : W ++ '?' :: q ≠ [] := by simp
    simp only [hqe, ne_eq, not_false_iff, if_true]
    rw [normalizePath]
    simp [hne, splitOnChar_append '?' W q hW, splitOnChar_of_not_mem '?' q hq,
      htrim, hh, hl, hqe]

/-- C4 counterexample: `normalizePath` keeps an existing double slash, so the
result of `"//x"` starts with two slashes, not exactly one. -/
theorem normalizePath_double_slash :
    normalizePath ['/', '/', 'x'] = ['/', '/', 'x', '/'] ∧
    ¬startsWithOneSlash (normalizePath ['/', '/', 'x']) := by
  decide

/-- C4 (amended).  For every path, the normalized result starts with at least
one `/`, its part before the first `?` ends with at least one `/`,
normalization is idempotent, and for inputs containing a single `?` with a
non-empty query the query string is preserved verbatim after the normalized
path part. -/
theorem normalizePath_spec (p : List Char) :
    (normalizePath p).head? = some '/' ∧
    ((splitOnChar '?' (normalizePath p)).headD []).getLast? = some '/' ∧
    normalizePath (normalizePath p) = normalizePath p ∧
    (∀ a q : List Char, p = a ++ '?' :: q → '?' ∉ a → '?' ∉ q → q ≠ [] →
      normalizePath p = (splitOnChar '?' (normalizePath p)).headD [] ++ '?' :: q) := by
  by_cases hp : p = []
  · subst hp
    refine ⟨by decide, by decide, by decide, ?_⟩
    intro a q habs
    exact absurd habs (by simp)
  · obtain ⟨W, q, hcomp, hh, hl, hW, hq, hqdef⟩ := normalizePath_decomp p hp
    have hWne : W ≠ [] := by
      intro h
      rw [h] at hh
      simp at hh
    have hhead : (normalizePath p).head? = some '/' := by
      rw [hcomp]
      by_cases hqe : q = []
      · simpa [hqe] using hh
      · simp only [hqe, ne_eq, not_false_iff, if_true]
        cases W with
        | nil => exact absurd rfl hWne
        | cons a l => simpa using (by simpa using hh : a = '/')
    have hsplit : (splitOnChar '?' (normalizePath p)).headD [] = W := by
      rw [hcomp]
      by_cases hqe : q = []
      · simp [hqe, splitOnChar_of_not_mem '?' W hW]
      · simp [hqe, splitOnChar_append '?' W q hW]
    refine ⟨hhead, by rw [hsplit]; exact hl, ?_, ?_⟩
    · rw [hcomp]
      exact normalizePath_fixed W q hh hl hW hq
    · intro a qq hpa ha hqq hqqne
      have hqeq : q = qq := by
        rw [hqdef, hpa, splitOnChar_append '?' a qq ha,
          splitOnChar_of_not_mem '?' qq hqq]
        simp
      rw [hsplit, hcomp, hqeq]
      simp [hqqne]

/-- C4 witness: the path `/x?y` normalizes to a single-`?` value whose path
part starts and ends with `/`, re-normalizes to itself, and keeps the query
`y` verbatim. -/
theorem normalizePath_spec_witness :
    (normalizePath ['/', 'x', '?', 'y']).head? = some '/' ∧
    normalizePath (normalizePath ['/', 'x', '?', 'y']) =
      normalizePath ['/', 'x', '?', 'y'] ∧
    normalizePath ['/', 'x', '?', 'y'] =
      (splitOnChar '?' (normalizePath ['/', 'x', '?', 'y'])).headD [] ++ '?' :: ['y'] := by
  have h := normalizePath_spec ['/', 'x', '?', 'y']
  exact ⟨h.1, h.2.2.1, h.2.2.2 ['/', 'x'] ['y'] rfl (by decide) (by decide) (by decide)⟩

end Finova
